import Mathlib

set_option maxRecDepth 40000

/-!
Verification development for the CryptoPulse-Sentinel anomaly detector
(`sentinel.py`).

The numeric domain of the source is 64-bit IEEE floating point as used by
pandas/numpy.  We embed it as the type `Val`: either NaN, one of the two
infinities, or a finite value represented exactly by a rational number.
Arithmetic follows the IEEE special-value rules used by numpy elementwise
operations (`x / 0 = ±inf` for `x ≠ 0`, `0 / 0 = NaN`, any operation on a
NaN operand yields NaN, comparisons against NaN are false).  Rounding of
finite values is idealized as exact rational arithmetic; the square root of
the rolling variance is taken with `Rat.sqrt`, which is exact whenever the
variance is a perfect rational square.  All properties proved below concern
definedness, signs, ordering, and membership, none of which depend on the
rounding idealization.

Rolling statistics follow the pandas `Series.rolling(window=w)` semantics
used on lines 35, 36 and 49 of the source: the window at index `i` is the
left-aligned slice of the `w` entries ending at `i`; the result is NaN
while fewer than `w` observations exist (`i + 1 < w`, the default
`min_periods = w`); infinities are converted to NaN before the computation
(pandas `_prep_values`), so a window containing a non-finite entry counts
fewer than `w` observations and also yields NaN.  `rolling(w).std()` is the
sample standard deviation (denominator `w - 1`), NaN for `w = 1`.
-/

/-- An IEEE-style scalar: NaN, +inf, -inf, or a finite value (idealized as
an exact rational). -/
inductive Val where
  | nan : Val
  | pinf : Val
  | ninf : Val
  | fin : ℚ → Val
deriving DecidableEq, Inhabited

namespace Val

/-- IEEE subtraction on `Val`: NaN absorbs, `(+inf) - (+inf)` and
`(-inf) - (-inf)` are NaN. -/
def sub : Val → Val → Val
  | fin a, fin b => fin (a - b)
  | fin _, pinf => ninf
  | fin _, ninf => pinf
  | pinf, fin _ => pinf
  | ninf, fin _ => ninf
  | pinf, ninf => pinf
  | ninf, pinf => ninf
  | _, _ => nan

/-- IEEE multiplication on `Val`: NaN absorbs, `0 * (±inf)` is NaN. -/
def mul : Val → Val → Val
  | fin a, fin b => fin (a * b)
  | fin a, pinf => if 0 < a then pinf else if a < 0 then ninf else nan
  | fin a, ninf => if 0 < a then ninf else if a < 0 then pinf else nan
  | pinf, fin b => if 0 < b then pinf else if b < 0 then ninf else nan
  | ninf, fin b => if 0 < b then ninf else if b < 0 then pinf else nan
  | pinf, pinf => pinf
  | ninf, ninf => pinf
  | pinf, ninf => ninf
  | ninf, pinf => ninf
  | _, _ => nan

/-- IEEE division on `Val`: NaN absorbs, `a / 0` is `±inf` for `a ≠ 0` and
NaN for `a = 0` (numpy elementwise semantics), `(±inf) / (±inf)` is NaN. -/
def div : Val → Val → Val
  | fin a, fin b =>
      if b = 0 then (if 0 < a then pinf else if a < 0 then ninf else nan)
      else fin (a / b)
  | fin _, pinf => fin 0
  | fin _, ninf => fin 0
  | pinf, fin b => if b < 0 then ninf else pinf
  | ninf, fin b => if b < 0 then pinf else ninf
  | _, _ => nan

/-- IEEE strict comparison `a < b` on `Val`: any comparison involving NaN
is false. -/
def lt : Val → Val → Bool
  | fin a, fin b => decide (a < b)
  | fin _, pinf => true
  | ninf, fin _ => true
  | ninf, pinf => true
  | _, _ => false

end Val

/-- One OHLCV observation, restricted to the three fields the core
computation reads (`High`, `Low`, `Volume`); the remaining columns are
payload carried through unchanged. -/
structure MarketDataRecord where
  high : Val
  low : Val
  volume : Val
deriving DecidableEq, Inhabited

/-- pandas `_prep_values` on one entry: infinities are replaced by NaN,
finite values are kept. -/
def prep1 : Val → Val
  | Val.fin q => Val.fin q
  | _ => Val.nan

/-- pandas `_prep_values` as applied by every rolling computation. -/
def prepValues (xs : List Val) : List Val :=
  xs.map prep1

/-- The left-aligned rolling window of size `w` ending at index `i`:
the slice `xs[i+1-w .. i]`. -/
def rollingWindow (xs : List Val) (w i : ℕ) : List Val :=
  (xs.take (i + 1)).drop (i + 1 - w)

/-- Extracts the finite values of a list, or `none` if any entry is
non-finite (after `prepValues`, non-finite means NaN, i.e. a missing
observation). -/
def finList? : List Val → Option (List ℚ)
  | [] => some []
  | Val.fin q :: rest => (finList? rest).map fun l => q :: l
  | _ => none

/-- Arithmetic mean of a window of observations. -/
def winMean (qs : List ℚ) : ℚ := qs.sum / (qs.length : ℚ)

/-- Sample variance (denominator `length - 1`) of a window of
observations. -/
def winVar (qs : List ℚ) : ℚ :=
  ((qs.map fun x => (x - winMean qs) ^ 2).sum) / ((qs.length : ℚ) - 1)

/-- Generic pandas rolling computation with window `w` and
`min_periods = w`: NaN while fewer than `w` entries exist, NaN when the
window contains a missing observation, otherwise the statistic `f` of the
window. -/
def rollingStat (f : List ℚ → Val) (w : ℕ) (xs : List Val) : List Val :=
  (List.range xs.length).map fun i =>
    if i + 1 < w then Val.nan
    else
      match finList? (rollingWindow xs w i) with
      | some qs => f qs
      | none => Val.nan

/-- The pandas `Series.rolling(window=w).mean()`. -/
def rollingMeanL (xs : List Val) (w : ℕ) : List Val :=
  rollingStat (fun qs => Val.fin (winMean qs)) w (prepValues xs)

/-- The pandas `Series.rolling(window=w).std()`: sample standard
deviation, NaN when
the window holds a single observation. -/
def rollingStdL (xs : List Val) (w : ℕ) : List Val :=
  rollingStat
    (fun qs =>
      if qs.length ≤ 1 then Val.nan else Val.fin (Rat.sqrt (winVar qs)))
    w (prepValues xs)

/-- Line 32: the needle_pct column, computed as (High - Low) / Low. -/
def needleCol (data : List MarketDataRecord) : List Val :=
  data.map fun r => Val.div (Val.sub r.high r.low) r.low

/-- One row of the DataFrame returned by `_calculate_metrics`: the original
record plus the four derived columns. -/
structure MetricRow where
  base : MarketDataRecord
  needle_pct : Val
  rolling_mean : Val
  rolling_std : Val
  z_score : Val
deriving DecidableEq, Inhabited

/-- Source `_calculate_metrics` (lines 27-40): derives `needle_pct`, its
rolling
mean and sample standard deviation over `window`, and the Z-score
`(needle_pct - rolling_mean) / rolling_std`, keeping every input row in
order. -/
def calculateMetrics (data : List MarketDataRecord) (window : ℕ) :
    List MetricRow :=
  let needle := needleCol data
  let rmean := rollingMeanL needle window
  let rstd := rollingStdL needle window
  (List.range data.length).map fun i =>
    { base := data.getD i default
      needle_pct := needle.getD i Val.nan
      rolling_mean := rmean.getD i Val.nan
      rolling_std := rstd.getD i Val.nan
      z_score :=
        Val.div (Val.sub (needle.getD i Val.nan) (rmean.getD i Val.nan))
          (rstd.getD i Val.nan) }

/-- Line 49: the avg_vol series — the trailing rolling mean of the Volume
column with the hard-coded window 30. -/
def avgVolCol (data : List MarketDataRecord) : List Val :=
  rollingMeanL (data.map fun r => r.volume) 30

/-- Line 52: the boolean mask, true at index `i` when z_score exceeds
z_threshold and Volume exceeds avg_vol times vol_multiplier there.  The
metrics are those of the metrics method invoked with its default window 30
(line 48). -/
def fatFingerCond (data : List MarketDataRecord)
    (z_threshold vol_multiplier : ℚ) (i : ℕ) : Bool :=
  Val.lt (Val.fin z_threshold)
      (((calculateMetrics data 30).getD i default).z_score)
    && Val.lt (Val.mul ((avgVolCol data).getD i Val.nan)
        (Val.fin vol_multiplier))
      ((data.getD i default).volume)

/-- Source `identify_fat_fingers` (lines 43-55): recomputes the metrics
with the
default window 30, computes the trailing volume mean with window 30, and
returns the rows selected by the mask `df[mask]`, keeping their positional
index and order. -/
def identifyFatFingers (data : List MarketDataRecord)
    (z_threshold vol_multiplier : ℚ) : List (ℕ × MetricRow) :=
  let df := calculateMetrics data 30
  (List.range data.length).filterMap fun i =>
    if fatFingerCond data z_threshold vol_multiplier i then
      some (i, df.getD i default)
    else none

/-- The two-window generalization of the detector: metrics computed with
window `wMetrics`, trailing volume mean with window `wVol`.  Used to state
which window sizes the source actually employs. -/
def detectWith (data : List MarketDataRecord) (wMetrics wVol : ℕ)
    (z_threshold vol_multiplier : ℚ) : List (ℕ × MetricRow) :=
  let df := calculateMetrics data wMetrics
  let av := rollingMeanL (data.map fun r => r.volume) wVol
  (List.range data.length).filterMap fun i =>
    if Val.lt (Val.fin z_threshold) ((df.getD i default).z_score)
        && Val.lt (Val.mul (av.getD i Val.nan) (Val.fin vol_multiplier))
          ((data.getD i default).volume) then
      some (i, df.getD i default)
    else none

/-- The mutable state of the `CryptoPulseSentinel` object: the ingested
batch `self.data` and the last detection result `self.anomalies`. -/
structure SentinelState where
  data : List MarketDataRecord
  anomalies : List (ℕ × MetricRow)
deriving DecidableEq

/-- Source `_calculate_metrics` as a method: it copies `self.data` into a
local
frame (`df = self.data.copy()`), derives the metric columns there, and
returns them; the object state is not written. -/
def calculateMetricsRun (s : SentinelState) (window : ℕ) :
    SentinelState × List MetricRow :=
  (s, calculateMetrics s.data window)

/-- Source `identify_fat_fingers` as a method: computes the anomaly rows
from
`self.data`, stores a copy in `self.anomalies` (line 54), and returns
them. -/
def identifyFatFingersRun (s : SentinelState)
    (z_threshold vol_multiplier : ℚ) :
    SentinelState × List (ℕ × MetricRow) :=
  let res := identifyFatFingers s.data z_threshold vol_multiplier
  ({ s with anomalies := res }, res)

/-- Observable outcome of `export_report` (lines 58-72): either the early
return with the cancellation notice (empty anomaly set), or the success
message together with the file written, if any. -/
inductive ExportAction where
  | cancelled : ExportAction
  | generated : Option (String × List (ℕ × MetricRow)) → String →
      ExportAction
deriving DecidableEq

/-- Source `export_report` (lines 58-72): returns early when
`self.anomalies` is
empty; otherwise builds the audit filename, writes the anomaly rows when
the format selector is `csv` or `json` (and writes nothing for any other
selector), and unconditionally reports the audit report as generated.
The wall-clock timestamp of line 64 is passed in as `timestamp`; the
pandas serializers are external writers, so the file payload is modeled as
the anomaly rows themselves. -/
def exportReport (anomalies : List (ℕ × MetricRow))
    (ticker timestamp fmt : String) : ExportAction :=
  if anomalies.isEmpty then ExportAction.cancelled
  else
    let filename :=
      "Sentinel_Audit_" ++ ticker.replace "-" "_" ++ "_" ++ timestamp
        ++ "." ++ fmt
    let file : Option (String × List (ℕ × MetricRow)) :=
      if fmt = "csv" then some (filename, anomalies)
      else if fmt = "json" then some (filename, anomalies)
      else none
    ExportAction.generated file
      ("BrilionX Audit Report generated: " ++ filename)

/-- Shorthand for a record with finite high, low and volume. -/
def mkRec (h l v : ℚ) : MarketDataRecord :=
  { high := Val.fin h, low := Val.fin l, volume := Val.fin v }

/-- Thirty identical candles: a perfectly flat market, so every full
window of `needle_pct` is constant. -/
def flat30 : List MarketDataRecord := List.replicate 30 (mkRec 2 1 10)

/-- Thirty candles whose `needle_pct` values are
`15-1=14, 0, 10, 4, 7, 7, ..., 7` (all lows are 1): the full window at
index 29 has mean 7 and sample variance exactly 4, hence standard
deviation exactly 2, and the final candle carries a hundredfold volume
spike. -/
def batch30 : List MarketDataRecord :=
  [mkRec 15 1 10, mkRec 1 1 10, mkRec 11 1 10, mkRec 5 1 10] ++
    List.replicate 25 (mkRec 8 1 10) ++ [mkRec 8 1 1000]

/-- The metric row the detector produces at index 29 of `batch30`. -/
def row29 : MetricRow :=
  { base := mkRec 8 1 1000
    needle_pct := Val.fin 7
    rolling_mean := Val.fin 7
    rolling_std := Val.fin 2
    z_score := Val.fin 0 }

/-- A single candle whose low price is zero. -/
def lowZero : List MarketDataRecord := [mkRec 1 0 5]

/-- A two-candle batch: long enough for a metrics window of 2, far too
short for the detector's volume window of 30. -/
def data2 : List MarketDataRecord := [mkRec 2 1 10, mkRec 3 1 20]

/-! ## Basic lemmas about the value domain -/

theorem Val.sub_nan_left (y : Val) : Val.sub Val.nan y = Val.nan := by
  cases y <;> rfl

theorem Val.sub_nan_right (x : Val) : Val.sub x Val.nan = Val.nan := by
  cases x <;> rfl

theorem Val.div_nan_left (y : Val) : Val.div Val.nan y = Val.nan := by
  cases y <;> rfl

theorem Val.div_nan_right (x : Val) : Val.div x Val.nan = Val.nan := by
  cases x <;> rfl

theorem Val.mul_nan_left (y : Val) : Val.mul Val.nan y = Val.nan := by
  cases y <;> rfl

theorem Val.lt_nan_right (x : Val) : Val.lt x Val.nan = false := by
  cases x <;> rfl

theorem Val.lt_nan_left (y : Val) : Val.lt Val.nan y = false := by
  cases y <;> rfl

theorem Val.ne_nan_of_lt_left {x y : Val} (h : Val.lt x y = true) :
    x ≠ Val.nan := by
  intro hx
  rw [hx, Val.lt_nan_left] at h
  exact Bool.false_ne_true h

theorem Val.ne_nan_of_lt_right {x y : Val} (h : Val.lt x y = true) :
    y ≠ Val.nan := by
  intro hy
  rw [hy, Val.lt_nan_right] at h
  exact Bool.false_ne_true h

/-! ## Indexing lemmas -/

theorem getD_range_map {α : Type} (f : ℕ → α) (n i : ℕ) (d : α)
    (h : i < n) : (((List.range n).map f).getD i d) = f i := by
  rw [List.getD_eq_getElem?_getD, List.getElem?_map, List.getElem?_range h]
  rfl

theorem getD_eq_of_getElem? {α : Type} {l : List α} {i : ℕ} {a : α}
    (d : α) (h : l[i]? = some a) : l.getD i d = a := by
  rw [List.getD_eq_getElem?_getD, h]
  rfl

theorem length_calculateMetrics (data : List MarketDataRecord) (w : ℕ) :
    (calculateMetrics data w).length = data.length := by
  unfold calculateMetrics
  rw [List.length_map, List.length_range]

theorem calculateMetrics_getD (data : List MarketDataRecord) (w i : ℕ)
    (h : i < data.length) :
    (calculateMetrics data w).getD i default =
      { base := data.getD i default
        needle_pct := (needleCol data).getD i Val.nan
        rolling_mean := (rollingMeanL (needleCol data) w).getD i Val.nan
        rolling_std := (rollingStdL (needleCol data) w).getD i Val.nan
        z_score :=
          Val.div
            (Val.sub ((needleCol data).getD i Val.nan)
              ((rollingMeanL (needleCol data) w).getD i Val.nan))
            ((rollingStdL (needleCol data) w).getD i Val.nan) } := by
  unfold calculateMetrics
  exact getD_range_map _ _ _ _ h

theorem mem_identifyFatFingers
    (data : List MarketDataRecord) (thr mult : ℚ) (i : ℕ)
    (row : MetricRow) :
    (i, row) ∈ identifyFatFingers data thr mult ↔
      (i < data.length ∧ row = (calculateMetrics data 30).getD i default ∧
        fatFingerCond data thr mult i = true) := by
  unfold identifyFatFingers
  rw [List.mem_filterMap]
  constructor
  · rintro ⟨j, hj, hsome⟩
    rw [List.mem_range] at hj
    by_cases hc : fatFingerCond data thr mult j
    · rw [if_pos hc] at hsome
      obtain ⟨hji, hrow⟩ := Prod.mk.injEq .. ▸ Option.some.inj hsome
      subst hji
      exact ⟨hj, hrow.symm, hc⟩
    · rw [if_neg hc] at hsome
      exact absurd hsome (Option.some_ne_none _).symm
  · rintro ⟨hi, hrow, hc⟩
    exact ⟨i, List.mem_range.mpr hi, by rw [if_pos hc, hrow]⟩

/-! ## Rolling-statistic lemmas -/

theorem length_prepValues (xs : List Val) :
    (prepValues xs).length = xs.length := by
  unfold prepValues
  exact List.length_map xs _

theorem prepValues_getElem? (xs : List Val) (i : ℕ) :
    (prepValues xs)[i]? = Option.map prep1 xs[i]? := by
  unfold prepValues
  exact List.getElem?_map _ xs i

theorem prep_eq_fin {v : Val} {q : ℚ}
    (h : prep1 v = Val.fin q) : v = Val.fin q := by
  cases v <;> simp_all [prep1]

theorem prep_eq_nan_of_nonfin {v : Val} (h : ∀ q : ℚ, v ≠ Val.fin q) :
    prep1 v = Val.nan := by
  cases v with
  | fin q => exact absurd rfl (h q)
  | nan => rfl
  | pinf => rfl
  | ninf => rfl

theorem rollingStat_getD (f : List ℚ → Val) (w : ℕ) (xs : List Val)
    (i : ℕ) (h : i < xs.length) :
    (rollingStat f w xs).getD i Val.nan =
      if i + 1 < w then Val.nan
      else
        match finList? (rollingWindow xs w i) with
        | some qs => f qs
        | none => Val.nan := by
  unfold rollingStat
  exact getD_range_map _ _ _ _ h

theorem finList?_eq_some {l : List Val} {qs : List ℚ}
    (h : finList? l = some qs) : l = qs.map Val.fin := by
  induction l generalizing qs with
  | nil =>
    unfold finList? at h
    cases Option.some.inj h
    rfl
  | cons a t ih =>
    cases a with
    | fin q =>
      unfold finList? at h
      cases hrest : finList? t with
      | none => rw [hrest] at h; exact absurd h (by simp)
      | some l' =>
        rw [hrest] at h
        simp only [Option.map_some'] at h
        cases Option.some.inj h
        rw [List.map_cons]
        exact congrArg _ (ih hrest)
    | nan => exact absurd h (by simp [finList?])
    | pinf => exact absurd h (by simp [finList?])
    | ninf => exact absurd h (by simp [finList?])

theorem finList?_none_of_mem_nan {l : List Val} (h : Val.nan ∈ l) :
    finList? l = none := by
  by_contra hc
  cases hs : finList? l with
  | none => exact hc hs
  | some qs =>
    rw [finList?_eq_some hs] at h
    obtain ⟨q, _, hq⟩ := List.mem_map.mp h
    exact Val.noConfusion hq

theorem rollingWindow_length (xs : List Val) (w i : ℕ)
    (hw : w ≤ i + 1) (h : i < xs.length) :
    (rollingWindow xs w i).length = w := by
  unfold rollingWindow
  rw [List.length_drop, List.length_take]
  omega

theorem rollingWindow_last (xs : List Val) (w i : ℕ)
    (hw : w ≤ i + 1) (hw1 : 1 ≤ w) ( _h : i < xs.length) :
    (rollingWindow xs w i)[w - 1]? = xs[i]? := by
  unfold rollingWindow
  rw [List.getElem?_drop]
  have : i + 1 - w + (w - 1) = i := by omega
  rw [this, List.getElem?_take]
  rw [if_pos (by omega)]

theorem rollingStat_getD_nan (f : List ℚ → Val) (w : ℕ) (xs : List Val)
    (i : ℕ) (h : i < xs.length) (hw1 : 1 ≤ w)
    (hnan : xs[i]? = some Val.nan) :
    (rollingStat f w xs).getD i Val.nan = Val.nan := by
  rw [rollingStat_getD f w xs i h]
  by_cases hiw : i + 1 < w
  · rw [if_pos hiw]
  · rw [if_neg hiw]
    have hlast := rollingWindow_last xs w i (by omega) hw1 h
    rw [hnan] at hlast
    have hmem : Val.nan ∈ rollingWindow xs w i := by
      obtain ⟨hlt, hget⟩ := List.getElem?_eq_some.mp hlast
      exact hget ▸ List.getElem_mem hlt
    rw [finList?_none_of_mem_nan hmem]

/-! ## Variance and square-root lemmas -/

theorem sum_sq_nonneg (qs : List ℚ) (c : ℚ) :
    0 ≤ (qs.map fun x => (x - c) ^ 2).sum := by
  apply List.sum_nonneg
  intro x hx
  obtain ⟨y, _, hy⟩ := List.mem_map.mp hx
  exact hy ▸ sq_nonneg _

theorem winVar_nonneg (qs : List ℚ) (h2 : 2 ≤ qs.length) :
    0 ≤ winVar qs := by
  unfold winVar
  apply div_nonneg (sum_sq_nonneg qs _)
  have : (2 : ℚ) ≤ (qs.length : ℚ) := by exact_mod_cast h2
  linarith

theorem ratSqrt_eq_zero {q : ℚ} (hq : 0 ≤ q) (h : Rat.sqrt q = 0) :
    q = 0 := by
  unfold Rat.sqrt at h
  have hden : Nat.sqrt q.den ≠ 0 := fun hc => q.den_nz (Nat.sqrt_eq_zero.mp hc)
  have hnum : Int.sqrt q.num = 0 := (Rat.mkRat_eq_zero hden).mp h
  unfold Int.sqrt at hnum
  have : Nat.sqrt q.num.toNat = 0 := by exact_mod_cast hnum
  rw [Nat.sqrt_eq_zero, Int.toNat_eq_zero] at this
  have hnn : 0 ≤ q.num := Rat.num_nonneg.mpr hq
  exact Rat.num_eq_zero.mp (le_antisymm this hnn)

theorem eq_mean_of_sum_sq_zero {c : ℚ} :
    ∀ qs : List ℚ, (qs.map fun x => (x - c) ^ 2).sum = 0 →
      ∀ x ∈ qs, x = c := by
  intro qs
  induction qs with
  | nil => intro _ x hx; exact absurd hx (List.not_mem_nil x)
  | cons a t ih =>
    intro hsum x hx
    rw [List.map_cons, List.sum_cons] at hsum
    have ht : 0 ≤ (t.map fun x => (x - c) ^ 2).sum := sum_sq_nonneg t c
    have ha : 0 ≤ (a - c) ^ 2 := sq_nonneg _
    rcases List.mem_cons.mp hx with hxa | hxt
    · subst hxa
      have : (x - c) ^ 2 = 0 := by linarith
      have := (pow_eq_zero_iff two_ne_zero).mp this
      linarith [sub_eq_zero.mp this]
    · exact ih (by linarith) x hxt

theorem winVar_eq_zero_forall {qs : List ℚ} (h2 : 2 ≤ qs.length)
    (h : winVar qs = 0) : ∀ x ∈ qs, x = winMean qs := by
  unfold winVar at h
  have hden : ((qs.length : ℚ) - 1) ≠ 0 := by
    have : (2 : ℚ) ≤ (qs.length : ℚ) := by exact_mod_cast h2
    intro hc
    linarith
  rcases div_eq_zero_iff.mp h with hnum | hden'
  · exact eq_mean_of_sum_sq_zero qs hnum
  · exact absurd hden' hden

/-! ## Z-score undefinedness -/

theorem length_needleCol (data : List MarketDataRecord) :
    (needleCol data).length = data.length := by
  unfold needleCol
  exact List.length_map data _

theorem div_fin_zero_fin_zero :
    Val.div (Val.fin 0) (Val.fin 0) = Val.nan := by
  decide

theorem zscore_eq_nan (data : List MarketDataRecord) (w i : ℕ)
    (hi : i < data.length)
    (h : ((calculateMetrics data w).getD i default).rolling_std = Val.fin 0 ∨
      ((calculateMetrics data w).getD i default).rolling_std = Val.nan ∨
      ((calculateMetrics data w).getD i default).rolling_mean = Val.nan ∨
      ((calculateMetrics data w).getD i default).needle_pct = Val.nan) :
    ((calculateMetrics data w).getD i default).z_score = Val.nan := by
  rw [calculateMetrics_getD data w i hi] at h ⊢
  dsimp only at h ⊢
  have hlen : i < (prepValues (needleCol data)).length := by
    rw [length_prepValues, length_needleCol]
    exact hi
  rcases h with hs0 | hsnan | hmnan | hndnan
  · -- rolling_std = fin 0: the window is constant, so the numerator is 0
    -- and the Z-score is 0/0 = NaN
    have hstd := hs0
    unfold rollingStdL at hs0
    rw [rollingStat_getD _ w _ i hlen] at hs0
    by_cases hiw : i + 1 < w
    · rw [if_pos hiw] at hs0
      exact absurd hs0 (by simp)
    · rw [if_neg hiw] at hs0
      cases hfl : finList? (rollingWindow (prepValues (needleCol data)) w i)
        with
      | none =>
        rw [hfl] at hs0
        exact absurd hs0 (by simp)
      | some qs =>
        rw [hfl] at hs0
        dsimp only at hs0
        by_cases hq1 : qs.length ≤ 1
        · rw [if_pos hq1] at hs0
          exact absurd hs0 (by simp)
        · rw [if_neg hq1] at hs0
          have hsqrt : Rat.sqrt (winVar qs) = 0 := Val.fin.inj hs0
          have h2 : 2 ≤ qs.length := by omega
          have hvar0 : winVar qs = 0 :=
            ratSqrt_eq_zero (winVar_nonneg qs h2) hsqrt
          have hall : ∀ x ∈ qs, x = winMean qs :=
            winVar_eq_zero_forall h2 hvar0
          have hwle : w ≤ i + 1 := by omega
          have hwl : (rollingWindow (prepValues (needleCol data)) w i).length
              = w := rollingWindow_length _ w i hwle hlen
          have hmapeq := finList?_eq_some hfl
          have hqlw : qs.length = w := by
            rw [hmapeq, List.length_map] at hwl
            exact hwl
          have hw2 : 2 ≤ w := hqlw ▸ h2
          have hlast := rollingWindow_last (prepValues (needleCol data))
            w i hwle (by omega) hlen
          rw [hmapeq, List.getElem?_map] at hlast
          have hwlt : w - 1 < qs.length := by omega
          rw [List.getElem?_eq_getElem hwlt] at hlast
          have hcm : qs[w - 1] = winMean qs :=
            hall _ (List.getElem_mem hwlt)
          -- the raw needle at i is therefore exactly the window mean
          have hpx : (prepValues (needleCol data))[i]? =
              some (Val.fin (winMean qs)) := by
            rw [← hlast, hcm]
            rfl
          rw [prepValues_getElem?] at hpx
          have hndlt : i < (needleCol data).length := by
            rw [length_needleCol]; exact hi
          rw [List.getElem?_eq_getElem hndlt] at hpx
          have hndval : (needleCol data)[i] = Val.fin (winMean qs) :=
            prep_eq_fin (Option.some.inj hpx)
          have hndgetD : (needleCol data).getD i Val.nan =
              Val.fin (winMean qs) :=
            getD_eq_of_getElem? _ (by rw [List.getElem?_eq_getElem hndlt, hndval])
          -- the rolling mean at i is also the window mean
          have hmgetD : (rollingMeanL (needleCol data) w).getD i Val.nan =
              Val.fin (winMean qs) := by
            unfold rollingMeanL
            rw [rollingStat_getD _ w _ i hlen, if_neg hiw, hfl]
          rw [hndgetD, hmgetD, hstd]
          show Val.div (Val.fin (winMean qs - winMean qs)) (Val.fin 0) =
            Val.nan
          rw [sub_self]
          exact div_fin_zero_fin_zero
  · rw [hsnan, Val.div_nan_right]
  · rw [hmnan, Val.sub_nan_right, Val.div_nan_left]
  · rw [hndnan, Val.sub_nan_left, Val.div_nan_left]

theorem zscore_eq_nan_of_needle_nonfin (data : List MarketDataRecord)
    (w i : ℕ) (hi : i < data.length) (hw : 1 ≤ w)
    (h : ∀ q : ℚ,
      ((calculateMetrics data w).getD i default).needle_pct ≠ Val.fin q) :
    ((calculateMetrics data w).getD i default).z_score = Val.nan := by
  rw [calculateMetrics_getD data w i hi] at h ⊢
  dsimp only at h ⊢
  have hndlt : i < (needleCol data).length := by
    rw [length_needleCol]; exact hi
  have hlen : i < (prepValues (needleCol data)).length := by
    rw [length_prepValues, length_needleCol]; exact hi
  have hndgetD : (needleCol data).getD i Val.nan = (needleCol data)[i] :=
    getD_eq_of_getElem? _ (List.getElem?_eq_getElem hndlt)
  have hnonfin : ∀ q : ℚ, (needleCol data)[i] ≠ Val.fin q := by
    intro q
    rw [← hndgetD]
    exact h q
  have hpx : (prepValues (needleCol data))[i]? = some Val.nan := by
    rw [prepValues_getElem?, List.getElem?_eq_getElem hndlt]
    dsimp only [Option.map_some']
    exact congrArg some (prep_eq_nan_of_nonfin hnonfin)
  have hmean : (rollingMeanL (needleCol data) w).getD i Val.nan =
      Val.nan := by
    unfold rollingMeanL
    exact rollingStat_getD_nan _ w _ i hlen hw hpx
  rw [hmean, Val.sub_nan_right, Val.div_nan_left]

theorem not_flagged_of_z_nan (data : List MarketDataRecord)
    (thr mult : ℚ) (i : ℕ)
    (hz : ((calculateMetrics data 30).getD i default).z_score = Val.nan) :
    ∀ row, (i, row) ∉ identifyFatFingers data thr mult := by
  intro row hmem
  obtain ⟨hi, hrow, hc⟩ :=
    (mem_identifyFatFingers data thr mult i row).mp hmem
  unfold fatFingerCond at hc
  rw [Bool.and_eq_true] at hc
  obtain ⟨h1, _⟩ := hc
  rw [hz, Val.lt_nan_right] at h1
  exact Bool.false_ne_true h1

theorem fatFingerCond_false_of_short (data : List MarketDataRecord)
    (thr mult : ℚ) (i : ℕ) (hi : i < data.length)
    (hlen : data.length < 30) :
    fatFingerCond data thr mult i = false := by
  have hiw : i + 1 < 30 := by omega
  have hplen : i < (prepValues (needleCol data)).length := by
    rw [length_prepValues, length_needleCol]; exact hi
  have hmean : ((calculateMetrics data 30).getD i default).rolling_mean =
      Val.nan := by
    rw [calculateMetrics_getD data 30 i hi]
    dsimp only
    unfold rollingMeanL
    rw [rollingStat_getD _ 30 _ i hplen, if_pos hiw]
  have hz := zscore_eq_nan data 30 i hi (Or.inr (Or.inr (Or.inl hmean)))
  unfold fatFingerCond
  rw [hz, Val.lt_nan_right, Bool.false_and]

/-! ## Claim theorems -/

/-- C1: the detector flags exactly the records whose `z_score` is defined
(non-NaN) and strictly above `z_threshold` AND whose volume is defined and
strictly above the trailing rolling volume mean times `vol_multiplier`
(both sides of the volume comparison defined); a record satisfying only
one condition, or with an undefined side, is never flagged, and the
flagged records keep the input order (strictly increasing positional
indices). -/
theorem claim_C1_conjunctive_flagging (data : List MarketDataRecord)
    (thr mult : ℚ) :
    (∀ i row, (i, row) ∈ identifyFatFingers data thr mult ↔
      (i < data.length ∧
        row = (calculateMetrics data 30).getD i default ∧
        (row.z_score ≠ Val.nan ∧
          Val.lt (Val.fin thr) row.z_score = true) ∧
        (row.base.volume ≠ Val.nan ∧
          (avgVolCol data).getD i Val.nan ≠ Val.nan ∧
          Val.lt (Val.mul ((avgVolCol data).getD i Val.nan) (Val.fin mult))
            row.base.volume = true))) ∧
    (identifyFatFingers data thr mult).Pairwise (fun a b => a.1 < b.1) := by
  constructor
  · intro i row
    rw [mem_identifyFatFingers]
    constructor
    · rintro ⟨hi, hrow, hc⟩
      subst hrow
      unfold fatFingerCond at hc
      rw [Bool.and_eq_true] at hc
      obtain ⟨h1, h2⟩ := hc
      have hbase :
          ((calculateMetrics data 30).getD i default).base =
            data.getD i default := by
        rw [calculateMetrics_getD data 30 i hi]
      refine ⟨hi, rfl, ⟨Val.ne_nan_of_lt_right h1, h1⟩, ?_, ?_, ?_⟩
      · rw [hbase]
        exact Val.ne_nan_of_lt_right h2
      · intro hnan
        rw [hnan, Val.mul_nan_left, Val.lt_nan_left] at h2
        exact Bool.false_ne_true h2
      · rw [hbase]
        exact h2
    · rintro ⟨hi, hrow, ⟨_, hz2⟩, _, _, hv3⟩
      subst hrow
      refine ⟨hi, rfl, ?_⟩
      unfold fatFingerCond
      rw [Bool.and_eq_true]
      refine ⟨hz2, ?_⟩
      rw [calculateMetrics_getD data 30 i hi] at hv3
      exact hv3
  · unfold identifyFatFingers
    apply List.Pairwise.filterMap
    · intro a a' haa b hb b' hb'
      by_cases hca : fatFingerCond data thr mult a
      · by_cases hca' : fatFingerCond data thr mult a'
        · rw [if_pos hca] at hb
          rw [if_pos hca'] at hb'
          cases hb
          cases hb'
          exact haa
        · rw [if_neg hca'] at hb'
          cases hb'
      · rw [if_neg hca] at hb
        cases hb
    · exact List.pairwise_lt_range data.length

/-- C5: for every batch and window `w`, a record with index `i < w - 1`
(equivalently `i + 1 < w`) has undefined `rolling_mean`, `rolling_std` and
`z_score`; and the Metrics Calculator's output has the same length as the
input, carrying each input record at its own position. -/
theorem claim_C5_warmup_undefined (data : List MarketDataRecord)
    (w i : ℕ) (hi : i < data.length) (hiw : i + 1 < w) :
    ((calculateMetrics data w).getD i default).rolling_mean = Val.nan ∧
    ((calculateMetrics data w).getD i default).rolling_std = Val.nan ∧
    ((calculateMetrics data w).getD i default).z_score = Val.nan ∧
    (calculateMetrics data w).length = data.length ∧
    (∀ j, j < data.length →
      ((calculateMetrics data w).getD j default).base =
        data.getD j default) := by
  have hplen : i < (prepValues (needleCol data)).length := by
    rw [length_prepValues, length_needleCol]; exact hi
  have hmean : ((calculateMetrics data w).getD i default).rolling_mean =
      Val.nan := by
    rw [calculateMetrics_getD data w i hi]
    dsimp only
    unfold rollingMeanL
    rw [rollingStat_getD _ w _ i hplen, if_pos hiw]
  have hstd : ((calculateMetrics data w).getD i default).rolling_std =
      Val.nan := by
    rw [calculateMetrics_getD data w i hi]
    dsimp only
    unfold rollingStdL
    rw [rollingStat_getD _ w _ i hplen, if_pos hiw]
  refine ⟨hmean, hstd,
    zscore_eq_nan data w i hi (Or.inr (Or.inl hstd)),
    length_calculateMetrics data w, ?_⟩
  intro j hj
  rw [calculateMetrics_getD data w j hj]

/-- C6: wherever `rolling_std` is exactly zero (e.g. a constant window),
or `rolling_std`, `rolling_mean` or `needle_pct` is undefined, the
`z_score` is NaN — neither infinite nor finite — and (for the detector's
window 30) such a record is never flagged. -/
theorem claim_C6_zero_std_z_undefined (data : List MarketDataRecord)
    (w i : ℕ) (hi : i < data.length)
    (h : ((calculateMetrics data w).getD i default).rolling_std =
        Val.fin 0 ∨
      ((calculateMetrics data w).getD i default).rolling_std = Val.nan ∨
      ((calculateMetrics data w).getD i default).rolling_mean = Val.nan ∨
      ((calculateMetrics data w).getD i default).needle_pct = Val.nan) :
    ((calculateMetrics data w).getD i default).z_score = Val.nan ∧
    (w = 30 → ∀ thr mult row,
      (i, row) ∉ identifyFatFingers data thr mult) := by
  have hz := zscore_eq_nan data w i hi h
  exact ⟨hz, fun hw thr mult row =>
    not_flagged_of_z_nan data thr mult i (hw ▸ hz) row⟩

/-- C7: a batch strictly shorter than the detector's window (30) yields
zero anomalies for every threshold pair; and in general the result is the
empty list exactly when no index satisfies the flagging mask — an empty
collection, not an error value. -/
theorem claim_C7_short_batch_empty (data : List MarketDataRecord)
    (thr mult : ℚ) :
    (data.length < 30 → identifyFatFingers data thr mult = []) ∧
    (identifyFatFingers data thr mult = [] ↔
      ∀ i, i < data.length → fatFingerCond data thr mult i = false) := by
  have hiff : identifyFatFingers data thr mult = [] ↔
      ∀ i, i < data.length → fatFingerCond data thr mult i = false := by
    unfold identifyFatFingers
    rw [List.filterMap_eq_nil_iff]
    constructor
    · intro h i hi
      have := h i (List.mem_range.mpr hi)
      by_cases hc : fatFingerCond data thr mult i
      · rw [if_pos hc] at this
        exact absurd this (by simp)
      · exact Bool.not_eq_true _ ▸ hc
    · intro h a ha
      rw [if_neg ?_]
      rw [h a (List.mem_range.mp ha)]
      simp
  refine ⟨?_, hiff⟩
  intro hlen
  exact hiff.mpr fun i hi =>
    fatFingerCond_false_of_short data thr mult i hi hlen

theorem needleCol_getD (data : List MarketDataRecord) (i : ℕ)
    (hi : i < data.length) :
    (needleCol data).getD i Val.nan =
      Val.div
        (Val.sub (data.getD i default).high (data.getD i default).low)
        ((data.getD i default).low) := by
  have hd : data.getD i default = data[i] :=
    getD_eq_of_getElem? _ (List.getElem?_eq_getElem hi)
  unfold needleCol
  rw [List.getD_eq_getElem?_getD, List.getElem?_map,
    List.getElem?_eq_getElem hi]
  dsimp only [Option.map_some', Option.getD_some]
  rw [hd]

/-- C2 (counterexample): a negative `z_threshold` is not rejected — the
detector performs the full computation and even returns an anomaly for
it.  On `batch30` with `z_threshold = -1` the flagged set is exactly the
final record (whose Z-score is 0 > -1 and whose volume 1000 exceeds five
times the trailing mean 43). -/
theorem claim_C2_counterexample :
    identifyFatFingers batch30 (-1) 5 = [(29, row29)] ∧
    identifyFatFingers batch30 (-1) 5 ≠ [] :=
  ⟨of_decide_eq_true (by with_unfolding_all rfl),
    of_decide_eq_true (by with_unfolding_all rfl)⟩

/-- C2 (amended): the source contains no parameter validation — with a
negative `z_threshold` or `vol_multiplier` the detector is not rejected
and its output is still governed by the ordinary flagging mask over the
fully computed metrics. -/
theorem claim_C2_amended (data : List MarketDataRecord) (thr mult : ℚ)
    ( _h : thr < 0 ∨ mult < 0) (i : ℕ) (row : MetricRow) :
    (i, row) ∈ identifyFatFingers data thr mult ↔
      (i < data.length ∧
        row = (calculateMetrics data 30).getD i default ∧
        fatFingerCond data thr mult i = true) :=
  mem_identifyFatFingers data thr mult i row

theorem claim_C2_amended_witness :
    (29, row29) ∈ identifyFatFingers batch30 (-1) 5 :=
  (claim_C2_amended batch30 (-1) 5 (Or.inl (by norm_num)) 29 row29).mpr
    ⟨of_decide_eq_true (by with_unfolding_all rfl),
      of_decide_eq_true (by with_unfolding_all rfl),
      of_decide_eq_true (by with_unfolding_all rfl)⟩

/-- C3 (counterexample): the metrics window is configurable (here 2: the
rolling mean is already defined at index 1) but the detector's volume
window is the hard-coded 30, which on the same two-record batch is still
undefined at index 1 — so the two windows are not equal for a configured
metrics window other than 30. -/
theorem claim_C3_counterexample :
    ((calculateMetrics data2 2).getD 1 default).rolling_mean =
      Val.fin (3 / 2) ∧
    (avgVolCol data2).getD 1 Val.nan = Val.nan :=
  ⟨of_decide_eq_true (by with_unfolding_all rfl),
    of_decide_eq_true (by with_unfolding_all rfl)⟩

/-- C3 (amended): within `identify_fat_fingers` both windows are the same
fixed size 30 — the detector equals the two-window generalization
instantiated with 30 for the metrics window and 30 for the volume window,
the volume mean using the same rolling-mean computation (same left-aligned
windowing, same undefined-for-insufficient-history policy). -/
theorem claim_C3_amended (data : List MarketDataRecord) (thr mult : ℚ) :
    identifyFatFingers data thr mult = detectWith data 30 30 thr mult ∧
    avgVolCol data = rollingMeanL (data.map fun r => r.volume) 30 :=
  ⟨rfl, rfl⟩

/-- C4 (counterexample): at a record with `low = 0` (and `high = 1 > 0`)
the source's `needle_pct` is `+inf` — an infinite value, not an undefined
one, contradicting the claim that it is undefined. -/
theorem claim_C4_counterexample :
    ((calculateMetrics lowZero 30).getD 0 default).needle_pct = Val.pinf ∧
    Val.pinf ≠ Val.nan :=
  ⟨of_decide_eq_true (by with_unfolding_all rfl), by decide⟩

/-- C4 (amended): at a record with `low = 0` and `high = q ≥ 0`, the
source's `needle_pct` is `+inf` when `q > 0` and NaN when `q = 0`; in
either case the value is absorbed locally (no fatal error) and the record
is never flagged, because every rolling window containing it — including
its own Z-score's — treats the non-finite entry as missing. -/
theorem claim_C4_amended (data : List MarketDataRecord) (i : ℕ) (q : ℚ)
    (hi : i < data.length)
    (hlow : (data.getD i default).low = Val.fin 0)
    (hhigh : (data.getD i default).high = Val.fin q) (hq : 0 ≤ q) :
    ((calculateMetrics data 30).getD i default).needle_pct =
      (if q = 0 then Val.nan else Val.pinf) ∧
    (∀ thr mult row, (i, row) ∉ identifyFatFingers data thr mult) := by
  have hneedle : ((calculateMetrics data 30).getD i default).needle_pct =
      (if q = 0 then Val.nan else Val.pinf) := by
    rw [calculateMetrics_getD data 30 i hi]
    dsimp only
    rw [needleCol_getD data i hi, hlow, hhigh]
    show Val.div (Val.fin (q - 0)) (Val.fin 0) = _
    rw [sub_zero]
    by_cases hq0 : q = 0
    · subst hq0
      rw [if_pos rfl]
      exact div_fin_zero_fin_zero
    · rw [if_neg hq0]
      have hqpos : 0 < q := lt_of_le_of_ne hq (Ne.symm hq0)
      simp [Val.div, hqpos]
  refine ⟨hneedle, ?_⟩
  intro thr mult row
  apply not_flagged_of_z_nan data thr mult i
  apply zscore_eq_nan_of_needle_nonfin data 30 i hi (by omega)
  intro q' hq'
  rw [hneedle] at hq'
  by_cases hq0 : q = 0
  · rw [if_pos hq0] at hq'
    exact Val.noConfusion hq'
  · rw [if_neg hq0] at hq'
    exact Val.noConfusion hq'

theorem claim_C4_amended_witness :
    ((calculateMetrics lowZero 30).getD 0 default).needle_pct =
      (if (1 : ℚ) = 0 then Val.nan else Val.pinf) :=
  (claim_C4_amended lowZero 0 1 (by decide) (by decide) (by decide)
    (by decide)).1

/-- C8: neither stage mutates the stored input batch: running the metrics
method leaves the object state unchanged, and the detection method leaves
`self.data` unchanged (it only replaces `self.anomalies` with the freshly
built result). -/
theorem claim_C8_no_input_mutation (s : SentinelState) (w : ℕ)
    (thr mult : ℚ) :
    (calculateMetricsRun s w).1 = s ∧
    ((identifyFatFingersRun s thr mult).1).data = s.data :=
  ⟨rfl, rfl⟩

/-- C9: the core is deterministic and idempotent: a second detection run
from the state left by the first returns the same anomalies and the same
state, the metrics computed after a detection run equal the metrics
computed before it, and the metrics output depends only on the stored data
and the window (there is no clock input anywhere in the model). -/
theorem claim_C9_deterministic_idempotent (s : SentinelState) (w : ℕ)
    (thr mult : ℚ) :
    (identifyFatFingersRun (identifyFatFingersRun s thr mult).1 thr
        mult).2 = (identifyFatFingersRun s thr mult).2 ∧
    (identifyFatFingersRun (identifyFatFingersRun s thr mult).1 thr
        mult).1 = (identifyFatFingersRun s thr mult).1 ∧
    (calculateMetricsRun (identifyFatFingersRun s thr mult).1 w).2 =
      (calculateMetricsRun s w).2 ∧
    (calculateMetricsRun s w).2 = calculateMetrics s.data w :=
  ⟨rfl, rfl, rfl, rfl⟩

/-- C10: with a non-empty anomaly set and a format selector other than
`csv` or `json`, `export_report` writes no file yet still reports the
audit report as generated, raising no error and giving no signal that the
format was unsupported. -/
theorem claim_C10_export_unknown_format (anoms : List (ℕ × MetricRow))
    (ticker timestamp fmt : String) (h1 : anoms ≠ [])
    (h2 : fmt ≠ "csv") (h3 : fmt ≠ "json") :
    exportReport anoms ticker timestamp fmt =
      ExportAction.generated none
        ("BrilionX Audit Report generated: " ++
          ("Sentinel_Audit_" ++ ticker.replace "-" "_" ++ "_" ++ timestamp
            ++ "." ++ fmt)) := by
  unfold exportReport
  have he : anoms.isEmpty = false := List.isEmpty_eq_false.mpr h1
  rw [if_neg (fun hc => Bool.false_ne_true (he ▸ hc))]
  simp only [if_neg h2, if_neg h3]

theorem claim_C10_witness :
    exportReport [(0, default)] "BTC-USD" "20260101" "xml" =
      ExportAction.generated none
        ("BrilionX Audit Report generated: " ++
          ("Sentinel_Audit_" ++ "BTC-USD".replace "-" "_" ++ "_" ++
            "20260101" ++ "." ++ "xml")) :=
  claim_C10_export_unknown_format [(0, default)] "BTC-USD" "20260101"
    "xml" (by simp) (by decide) (by decide)

theorem claim_C5_witness :
    ((calculateMetrics data2 3).getD 0 default).rolling_mean = Val.nan :=
  (claim_C5_warmup_undefined data2 3 0 (by decide) (by decide)).1

theorem claim_C6_witness :
    ((calculateMetrics flat30 30).getD 29 default).z_score = Val.nan :=
  (claim_C6_zero_std_z_undefined flat30 30 29 (by decide)
    (Or.inl (of_decide_eq_true (by with_unfolding_all rfl)))).1

theorem claim_C7_witness : identifyFatFingers data2 8 5 = [] :=
  (claim_C7_short_batch_empty data2 8 5).1 (by decide)
